import Mathlib

/-!
# Verification of the Arazzo workflow tooling core

A shallow embedding, in Lean, of the two code paths the specification's
claims talk about:

* the structural validator of `src/extension.ts`
  (`validateArazzo`, `validateStep`, `checkRequired`, `addDiagnostic`),
  which walks a parsed YAML tree and collects diagnostics; and
* the flowchart generator of `src/webview-ui/src/lib/mermaid-converter.ts`
  (`workflowToMermaidFlowchart`, `sanitizeId`, `sanitizeLabel`,
  `extractHttpMethod`), which turns a typed `ArazzoSpec` value into a
  Mermaid flowchart.

The YAML tree is modelled as an inductive `Yaml` with scalars, maps and
sequences, each carrying the `range` array of the underlying parser node.
JavaScript truthiness (`x || y`, `if (x)`) is modelled explicitly where the
source relies on it (`jsOrNat`, `truthyStr`, `jsOrStr`).

The flowchart generator in the source builds a list of Mermaid text lines.
The embedding keeps the list structure but abstracts each *semantically
relevant* pushed line (a node declaration or an edge) into an `Item`
constructor, in exactly the order the source pushes them; the purely
decorative lines (the `flowchart TB` header, `classDef` styles, `%%`
comments and blank separators) are constant and are not represented.
-/

namespace Arazzo

/-! ## YAML tree model (the `yaml` package nodes used by `extension.ts`) -/

/-- A parsed YAML node: a scalar, a map of string-keyed pairs, or a
sequence.  `range` is the parser's offset array `[start, value-end,
node-end]` (possibly shorter or empty for synthetic nodes). -/
inductive Yaml where
  | scalar (value : String) (range : List Nat)
  | map (entries : List (String × Yaml)) (range : List Nat)
  | seq (items : List Yaml) (range : List Nat)

namespace Yaml

/-- The `range` array of a node. -/
def range : Yaml → List Nat
  | .scalar _ r => r
  | .map _ r => r
  | .seq _ r => r

/-- `node.get(key, true)`: the value node of the first pair with the given
key; `undefined` (here `none`) on non-maps or missing keys. -/
def get : Yaml → String → Option Yaml
  | .map entries _, key => (entries.find? (fun e => e.1 == key)).map (·.2)
  | _, _ => none

/-- `node.has(key)`. -/
def has (n : Yaml) (key : String) : Bool := (n.get key).isSome

/-- `isMap(node)`. -/
def isMap : Yaml → Bool
  | .map .. => true
  | _ => false

end Yaml

/-- JavaScript `a || b` on an optional number (`undefined` and `0` are both
falsy). -/
def jsOrNat (a : Option Nat) (b : Nat) : Nat :=
  match a with
  | some v => if v = 0 then b else v
  | none => b

/-- A collected diagnostic.  The source wraps the two offsets into a
`vscode.Range` via `document.positionAt` and always uses severity
`Error`; the embedding keeps the offsets. -/
structure Diagnostic where
  rangeStart : Nat
  rangeEnd : Nat
  message : String
deriving Repr, DecidableEq

/-- `addDiagnostic(node, message, ...)`: the pushed diagnostic, with
`rangeStart = node.range?.[0] || 0` and
`rangeEnd = node.range?.[2] || node.range?.[1] || 0`. -/
def mkDiag (node : Yaml) (message : String) : Diagnostic :=
  { rangeStart := jsOrNat (node.range.get? 0) 0
    rangeEnd := jsOrNat (node.range.get? 2) (jsOrNat (node.range.get? 1) 0)
    message := message }

/-- `checkRequired(node, fields, ...)`: one "Missing required field"
diagnostic per absent field, in field order. -/
def checkRequired (node : Yaml) (fields : List String) : List Diagnostic :=
  fields.filterMap fun field =>
    if node.has field then none
    else some (mkDiag node ("Missing required field: " ++ field))

/-- `validateStep(step, ...)`: the required-`stepId` check followed by the
operation-reference presence check. -/
def validateStep (step : Yaml) : List Diagnostic :=
  checkRequired step ["stepId"] ++
  (if step.has "operationId" || step.has "operationPath" || step.has "workflowId" then []
   else [mkDiag step "Step must contain one of \"operationId\", \"operationPath\", or \"workflowId\""])

/-- The body of the `sourceDescriptions.items.forEach` loop in
`validateArazzo`: `name`/`url` required and the `type` enum check, for map
items only. -/
def validateSourceDescriptionItem (item : Yaml) : List Diagnostic :=
  if item.isMap then
    checkRequired item ["name", "url"] ++
    (match item.get "type" with
     | some (Yaml.scalar v r) =>
        if v ≠ "openapi" ∧ v ≠ "arazzo" then
          [mkDiag (Yaml.scalar v r) "Type must be \"openapi\" or \"arazzo\""]
        else []
     | _ => [])
  else []

/-- The body of the `workflows.items.forEach` loop in `validateArazzo`:
`workflowId`/`steps` required, the `steps` sequence checks, and
`validateStep` on each map step. -/
def validateWorkflowItem (workflow : Yaml) : List Diagnostic :=
  if workflow.isMap then
    checkRequired workflow ["workflowId", "steps"] ++
    (match workflow.get "steps" with
     | none => []
     | some steps =>
        match steps with
        | Yaml.seq items _ =>
          (if items.length = 0 then [mkDiag steps "steps must have at least one entry"] else []) ++
          items.flatMap (fun step => if step.isMap then validateStep step else [])
        | _ => [mkDiag steps "steps must be an array"])
  else []

/-- `validateArazzo(root, ...)`: all diagnostics pushed for a document,
in push order. -/
def validateArazzo (root : Yaml) : List Diagnostic :=
  checkRequired root ["arazzo", "info", "sourceDescriptions", "workflows"] ++
  (match root.get "info" with
   | some info => if info.isMap then checkRequired info ["title", "version"] else []
   | none => []) ++
  (match root.get "sourceDescriptions" with
   | none => []
   | some sds =>
      match sds with
      | Yaml.seq items _ =>
        (if items.length = 0 then [mkDiag sds "sourceDescriptions must have at least one entry"] else []) ++
        items.flatMap validateSourceDescriptionItem
      | _ => [mkDiag sds "sourceDescriptions must be an array"]) ++
  (match root.get "workflows" with
   | none => []
   | some wfs =>
      match wfs with
      | Yaml.seq items _ =>
        (if items.length = 0 then [mkDiag wfs "workflows must have at least one entry"] else []) ++
        items.flatMap validateWorkflowItem
      | _ => [mkDiag wfs "workflows must be an array"])

/-! ## Typed Arazzo model (`src/webview-ui/src/types/arazzo.ts`)

Only the fields the flowchart generator reads are carried.  `Record`
fields whose values are never read (`inputs.properties`, `outputs`) are
carried as their ordered key lists. -/

/-- A criterion attached to an action; the flowchart generator never reads
it, which is exactly what the default-edge-suppression claim is about. -/
structure Criterion where
  condition : String
deriving Repr, DecidableEq

/-- A success or failure action object.  The generator reads `name`,
`type` and `stepId` only; `type` is kept as the raw string the source
compares against (`"end" | "goto" | "retry"`). -/
structure Action where
  name : String
  type : String
  workflowId : Option String := none
  stepId : Option String := none
  criteria : Option (List Criterion) := none
deriving Repr, DecidableEq

/-- An entry of `onSuccess`/`onFailure`: either a `ReusableObject`
(detected by `isReusableObject`, i.e. the presence of `reference`) or an
inline action. -/
inductive ActionRef where
  | reusable (reference : String)
  | action (a : Action)
deriving Repr, DecidableEq

/-- A workflow step. -/
structure Step where
  stepId : String
  operationId : Option String := none
  operationPath : Option String := none
  workflowId : Option String := none
  onSuccess : Option (List ActionRef) := none
  onFailure : Option (List ActionRef) := none
  outputs : Option (List String) := none
deriving Repr, DecidableEq

/-- Workflow inputs: only the key list of `properties` is read
(`Object.keys(workflow.inputs.properties)`). -/
structure WorkflowInputs where
  properties : Option (List String) := none
deriving Repr, DecidableEq

/-- A workflow; `outputs` is the ordered key list of the outputs record. -/
structure Workflow where
  workflowId : String
  summary : Option String := none
  inputs : Option WorkflowInputs := none
  steps : List Step
  outputs : Option (List String) := none
deriving Repr, DecidableEq

/-- A source description (unused by the flowchart generator). -/
structure SourceDescription where
  name : String
  url : String
  type : Option String := none
deriving Repr, DecidableEq

/-- The top-level spec value handed to the converters. -/
structure ArazzoSpec where
  arazzo : String
  sourceDescriptions : List SourceDescription := []
  workflows : List Workflow
deriving Repr, DecidableEq

/-! ## String utilities of `mermaid-converter.ts` -/

/-- JavaScript `s || d` for strings (`""` is falsy). -/
def jsOrStr (s d : String) : String := if s = "" then d else s

/-- JavaScript truthiness of an optional string field (`undefined` and
`""` are both falsy). -/
def truthyStr : Option String → Option String
  | none => none
  | some s => if s = "" then none else some s

/-- `id.replace(/[^a-zA-Z0-9_]/g, '_')` keeps exactly these characters. -/
def isAllowedIdChar (c : Char) : Bool :=
  (('a' ≤ c && c ≤ 'z') || ('A' ≤ c && c ≤ 'Z') || ('0' ≤ c && c ≤ '9') || c = '_')

/-- `sanitizeId`: every character outside `[a-zA-Z0-9_]` becomes `'_'`. -/
def sanitizeId (id : String) : String :=
  String.mk (id.data.map (fun c => if isAllowedIdChar c then c else '_'))

/-- One global single-character replacement pass (`.replace(/c/g, r)`). -/
def replaceAllChar (c r : Char) (l : List Char) : List Char :=
  l.map fun x => if x = c then r else x

/-- One global character removal pass (`.replace(/c/g, '')`). -/
def removeAllChar (c : Char) (l : List Char) : List Char :=
  l.filter fun x => x ≠ c

/-- One global two-character-pattern replacement pass
(`.replace(/ab/g, repl)`), left to right, non-overlapping. -/
def replacePairSub (a b : Char) (repl : List Char) : List Char → List Char
  | [] => []
  | [x] => [x]
  | x :: y :: rest =>
    if x = a ∧ y = b then repl ++ replacePairSub a b repl rest
    else x :: replacePairSub a b repl (y :: rest)

/-- The final `.trim()`: strip leading and trailing whitespace. -/
def trimChars (l : List Char) : List Char :=
  ((l.dropWhile Char.isWhitespace).reverse.dropWhile Char.isWhitespace).reverse

/-- `sanitizeLabel`: the replacement chain of the source, innermost pass
first (`"`→`'`, drop `$`, `[`→`(`, `]`→`)`, drop `<` `>`, `:` `;`→space,
`||`→` OR `, `&&`→` AND `, `|`→`/`, newline→space, then `trim`). -/
def sanitizeLabel (label : String) : String :=
  String.mk (trimChars
    (replaceAllChar '\n' ' '
      (replaceAllChar '|' '/'
        (replacePairSub '&' '&' " AND ".data
          (replacePairSub '|' '|' " OR ".data
            (replaceAllChar ';' ' '
              (replaceAllChar ':' ' '
                (removeAllChar '>'
                  (removeAllChar '<'
                    (replaceAllChar ']' ')'
                      (replaceAllChar '[' '('
                        (removeAllChar '$'
                          (replaceAllChar '"' '\'' label.data)))))))))))))

/-- Whether `needle` occurs as a contiguous run inside `hay`. -/
def isInfixOfCh (needle : List Char) : List Char → Bool
  | [] => needle.isEmpty
  | x :: rest => needle.isPrefixOf (x :: rest) || isInfixOfCh needle rest

/-- `s.includes(sub)`. -/
def strIncludes (s sub : String) : Bool := isInfixOfCh sub.data s.data

/-- `extractHttpMethod` (the converter's local copy, with its `verify` and
`log` keywords): guesses a method from the operation id's last dotted
segment. -/
def extractHttpMethod (operationId : Option String) : Option String :=
  match operationId with
  | none => none
  | some oid =>
    if oid = "" then none
    else
      let opPart := if strIncludes oid "." then (oid.splitOn ".").getLastD "" else oid
      let op := opPart.toLower
      if strIncludes op "get" || strIncludes op "find" || strIncludes op "list" ||
         strIncludes op "search" || strIncludes op "retrieve" || strIncludes op "verify" then some "GET"
      else if strIncludes op "post" || strIncludes op "create" || strIncludes op "place" ||
         strIncludes op "add" || strIncludes op "log" || strIncludes op "upsert" then some "POST"
      else if strIncludes op "put" || strIncludes op "update" then some "PUT"
      else if strIncludes op "delete" || strIncludes op "remove" then some "DELETE"
      else if strIncludes op "patch" then some "PATCH"
      else none

/-! ## Flowchart emission (`workflowToMermaidFlowchart`)

Each `Item` is one semantically relevant line pushed by the source, in
push order.  `edge a b .solid l` is an `a --> b` (or `a -->|l| b`) line;
`edge a b .dotted l` is an `a -.->|l| b` line.  The `END_ERROR` node is
declared inline inside its own edge line in the source, so it has no
separate item. -/

/-- Solid (`-->`) vs dotted (`-.->`) Mermaid arrows; the source draws all
success/sequential edges solid and all failure edges dotted. -/
inductive EdgeStyle where
  | solid
  | dotted
deriving Repr, DecidableEq

/-- One emitted flowchart line that declares a node or an edge. -/
inductive Item where
  | inputNode (label : String)
  | stepNode (id : String) (label : String)
  | outputNode (label : String)
  | edge (src : String) (dst : String) (style : EdgeStyle) (label : Option String)
deriving Repr, DecidableEq

/-- Whether an item is a node declaration (as opposed to an edge). -/
def Item.isNode : Item → Bool
  | .inputNode _ => true
  | .stepNode _ _ => true
  | .outputNode _ => true
  | .edge .. => false

/-- The node-declaration items of an emitted list. -/
def nodeItems (l : List Item) : List Item := l.filter Item.isNode

/-- The edge items of an emitted list. -/
def edgeItems (l : List Item) : List Item := l.filter (fun i => !i.isNode)

/-- The `INPUT` node label: `📥 Inputs: ` followed by the sanitized joined
input property keys, or `none` when `workflow.inputs?.properties` is
absent. -/
def inputLabel (w : Workflow) : String :=
  let inputProps :=
    match w.inputs with
    | some i =>
      match i.properties with
      | some ks => String.intercalate ", " ks
      | none => "none"
    | none => "none"
  "📥 Inputs: " ++ sanitizeLabel inputProps

/-- A step node's label: `"<n>. [<METHOD>] <stepId>"` with the method
badge omitted when no method is guessed. -/
def stepLabel (index : Nat) (s : Step) : String :=
  let methodBadge :=
    match extractHttpMethod s.operationId with
    | some m => "[" ++ m ++ "] "
    | none => ""
  toString (index + 1) ++ ". " ++ methodBadge ++ sanitizeLabel s.stepId

/-- The step node declarations, in declared order. -/
def stepNodes (steps : List Step) : List Item :=
  steps.enum.map fun p => Item.stepNode (sanitizeId p.2.stepId) (stepLabel p.1 p.2)

/-- The `OUTPUT` node label for declared output keys. -/
def outputLabel (ks : List String) : String :=
  "📤 Outputs: " ++ sanitizeLabel (String.intercalate ", " ks)

/-- `step.onSuccess?.some(a => !isReusableObject(a) && (a.type === 'goto'
|| a.type === 'end'))`: whether the default sequential edge out of `step`
is suppressed. -/
def hasExplicitNext (step : Step) : Bool :=
  match step.onSuccess with
  | none => false
  | some acts => acts.any fun ar =>
      match ar with
      | .reusable _ => false
      | .action a => a.type == "goto" || a.type == "end"

/-- The edge (if any) emitted for one `onSuccess` entry of the step with
raw id `srcId`: a labelled solid edge for a `goto` with a truthy `stepId`,
a solid edge to `OUTPUT` for an `end`, nothing otherwise (reusable
references and every other `type` are skipped). -/
def successEdgeOf (srcId : String) : ActionRef → Option Item
  | .reusable _ => none
  | .action a =>
    if a.type == "goto" then
      match truthyStr a.stepId with
      | some sid =>
        some (Item.edge (sanitizeId srcId) (sanitizeId sid) EdgeStyle.solid
          (some ("✓ " ++ sanitizeLabel (jsOrStr a.name "success"))))
      | none => none
    else if a.type == "end" then
      some (Item.edge (sanitizeId srcId) "OUTPUT" EdgeStyle.solid (some "✓ end"))
    else none

/-- The edge (if any) emitted for one `onFailure` entry: a labelled dotted
edge for a `goto` with a truthy `stepId`, a dotted edge to `END_ERROR`
for an `end`, nothing otherwise — in particular nothing for `retry`. -/
def failureEdgeOf (srcId : String) : ActionRef → Option Item
  | .reusable _ => none
  | .action a =>
    if a.type == "goto" then
      match truthyStr a.stepId with
      | some sid =>
        some (Item.edge (sanitizeId srcId) (sanitizeId sid) EdgeStyle.dotted
          (some ("✗ " ++ sanitizeLabel (jsOrStr a.name "failure"))))
      | none => none
    else if a.type == "end" then
      some (Item.edge (sanitizeId srcId) "END_ERROR" EdgeStyle.dotted (some "✗ end"))
    else none

/-- All `onSuccess` edges of a step, in declaration order. -/
def successEdges (s : Step) : List Item :=
  (s.onSuccess.getD []).filterMap (successEdgeOf s.stepId)

/-- All `onFailure` edges of a step (suppressed wholesale by the
`hideErrorFlows` option). -/
def failureEdges (hideErrorFlows : Bool) (s : Step) : List Item :=
  if hideErrorFlows then []
  else (s.onFailure.getD []).filterMap (failureEdgeOf s.stepId)

/-- The per-step connection loop (`for (let i = 0; ...)`): for each step,
the default sequential edge to the next step unless suppressed, then the
`onSuccess` edges, then the `onFailure` edges. -/
def stepConnections (hideErrorFlows : Bool) : List Step → List Item
  | [] => []
  | [s] => successEdges s ++ failureEdges hideErrorFlows s
  | s :: next :: rest =>
    (if hasExplicitNext s then []
     else [Item.edge (sanitizeId s.stepId) (sanitizeId next.stepId) EdgeStyle.solid none]) ++
    successEdges s ++ failureEdges hideErrorFlows s ++
    stepConnections hideErrorFlows (next :: rest)

/-- `lastStep.onSuccess?.some(a => !isReusableObject(a) && a.type ===
'end')`. -/
def hasExplicitEnd (s : Step) : Bool :=
  match s.onSuccess with
  | none => false
  | some acts => acts.any fun ar =>
      match ar with
      | .reusable _ => false
      | .action a => a.type == "end"

/-- The trailing `lastStep --> OUTPUT` edge, emitted when outputs are
declared, the workflow has steps and the last step has no explicit `end`
success action. -/
def lastToOutput (w : Workflow) : List Item :=
  match w.outputs with
  | none => []
  | some _ =>
    match w.steps.getLast? with
    | none => []
    | some last =>
      if hasExplicitEnd last then []
      else [Item.edge (sanitizeId last.stepId) "OUTPUT" EdgeStyle.solid none]

/-- All node and edge lines emitted for one workflow, in push order:
`INPUT` node, step nodes, `OUTPUT` node (when outputs are declared),
`INPUT --> firstStep`, the per-step connections, `lastStep --> OUTPUT`. -/
def flowchartItems (w : Workflow) (hideErrorFlows : Bool) : List Item :=
  [Item.inputNode (inputLabel w)] ++
  stepNodes w.steps ++
  (match w.outputs with
   | some ks => [Item.outputNode (outputLabel ks)]
   | none => []) ++
  (match w.steps with
   | [] => []
   | s :: _ => [Item.edge "INPUT" (sanitizeId s.stepId) EdgeStyle.solid none]) ++
  stepConnections hideErrorFlows w.steps ++
  lastToOutput w

/-- `workflowToMermaidFlowchart(spec, workflowId, options)`: looks the
workflow up by id, throws `Workflow not found: <id>` when absent, and
otherwise emits the flowchart (the thrown error is modelled as
`Except.error`). -/
def workflowToMermaidFlowchart (spec : ArazzoSpec) (workflowId : String)
    (hideErrorFlows : Bool := false) : Except String (List Item) :=
  match spec.workflows.find? (fun w => w.workflowId == workflowId) with
  | none => Except.error ("Workflow not found: " ++ workflowId)
  | some w => Except.ok (flowchartItems w hideErrorFlows)

/-! ## Derived notions used by the statements -/

/-- The default sequential edges of a step list: one solid unlabelled edge
per consecutive pair.  Only the default-edge branch of the connection loop
emits solid unlabelled edges, so these are recognizable in the output. -/
def seqEdges : List Step → List Item
  | a :: b :: rest =>
    Item.edge (sanitizeId a.stepId) (sanitizeId b.stepId) EdgeStyle.solid none :: seqEdges (b :: rest)
  | _ => []

/-- The consecutive pairs of a list, in order. -/
def consecPairs : List Step → List (Step × Step)
  | a :: b :: rest => (a, b) :: consecPairs (b :: rest)
  | _ => []

/-- Whether an item is a solid unlabelled edge — the shape emitted only by
the default sequential-flow branch of the connection loop. -/
def isDefaultSeqEdge : Item → Bool
  | .edge _ _ EdgeStyle.solid none => true
  | _ => false

/-- A step declares no actions at all when both action lists are empty
(absent or present-but-empty). -/
def noActions (s : Step) : Prop :=
  s.onSuccess.getD [] = [] ∧ s.onFailure.getD [] = []

/-! ## Basic lemmas about the emission -/

theorem stepNodes_isNode {l : List Step} {x : Item} (hx : x ∈ stepNodes l) :
    x.isNode = true := by
  obtain ⟨p, -, rfl⟩ := List.mem_map.mp hx
  rfl

theorem seqEdges_isNode {l : List Step} {x : Item} (hx : x ∈ seqEdges l) :
    x.isNode = false := by
  induction l with
  | nil => simp [seqEdges] at hx
  | cons a rest ih =>
    match rest, hx with
    | [], hx => simp [seqEdges] at hx
    | b :: rest, hx =>
      rw [seqEdges, List.mem_cons] at hx
      rcases hx with rfl | hx
      · rfl
      · exact ih hx

theorem seqEdges_length {l : List Step} : (seqEdges l).length = l.length - 1 := by
  induction l with
  | nil => rfl
  | cons a rest ih =>
    match rest, ih with
    | [], _ => rfl
    | b :: rest, ih => simpa [seqEdges] using ih

theorem hasExplicitNext_of_noActs {s : Step} (h : s.onSuccess.getD [] = []) :
    hasExplicitNext s = false := by
  unfold hasExplicitNext
  match hs : s.onSuccess with
  | none => rfl
  | some acts => rw [hs] at h; simp at h; simp [h]

theorem hasExplicitEnd_of_noActs {s : Step} (h : s.onSuccess.getD [] = []) :
    hasExplicitEnd s = false := by
  unfold hasExplicitEnd
  match hs : s.onSuccess with
  | none => rfl
  | some acts => rw [hs] at h; simp at h; simp [h]

theorem successEdges_of_noActs {s : Step} (h : s.onSuccess.getD [] = []) :
    successEdges s = [] := by
  unfold successEdges
  rw [h]
  rfl

theorem failureEdges_of_noActs {s : Step} (hide : Bool) (h : s.onFailure.getD [] = []) :
    failureEdges hide s = [] := by
  unfold failureEdges
  cases hide
  · rw [h]; rfl
  · rfl

/-- With no declared actions anywhere, the connection loop emits exactly
the default sequential edges. -/
theorem stepConnections_plain {l : List Step} (hide : Bool)
    (h : ∀ s ∈ l, noActions s) : stepConnections hide l = seqEdges l := by
  induction l with
  | nil => rfl
  | cons a rest ih =>
    have ha := h a (List.mem_cons_self a rest)
    match rest with
    | [] =>
      show successEdges a ++ failureEdges hide a = []
      rw [successEdges_of_noActs ha.1, failureEdges_of_noActs hide ha.2]
      rfl
    | b :: rest =>
      show (if hasExplicitNext a then [] else [_]) ++ successEdges a ++ failureEdges hide a ++
        stepConnections hide (b :: rest) = _
      rw [successEdges_of_noActs ha.1, failureEdges_of_noActs hide ha.2,
        if_neg (by simp [hasExplicitNext_of_noActs ha.1]),
        ih (fun s hs => h s (List.mem_cons_of_mem a hs))]
      simp [seqEdges]

theorem nodeItems_stepNodes (l : List Step) : nodeItems (stepNodes l) = stepNodes l :=
  List.filter_eq_self.mpr fun _ hx => stepNodes_isNode hx

theorem edgeItems_stepNodes (l : List Step) : edgeItems (stepNodes l) = [] :=
  List.filter_eq_nil_iff.mpr fun _ hx => by simp [stepNodes_isNode hx]

theorem edgeItems_seqEdges (l : List Step) : edgeItems (seqEdges l) = seqEdges l :=
  List.filter_eq_self.mpr fun _ hx => by simp [seqEdges_isNode hx]

theorem nodeItems_seqEdges (l : List Step) : nodeItems (seqEdges l) = [] :=
  List.filter_eq_nil_iff.mpr fun _ hx => by simp [nodeItems, seqEdges_isNode hx]

theorem stepNodes_length (l : List Step) : (stepNodes l).length = l.length := by
  simp [stepNodes]

theorem nodeItems_append (a b : List Item) : nodeItems (a ++ b) = nodeItems a ++ nodeItems b :=
  List.filter_append a b

theorem edgeItems_append (a b : List Item) : edgeItems (a ++ b) = edgeItems a ++ edgeItems b :=
  List.filter_append a b

/-- **C1.**  For a workflow with at least one step, none of whose steps
declare success or failure actions, and with a declared outputs map, the
flowchart emits exactly the node lines `INPUT`, the step nodes in declared
order, `OUTPUT` (`N + 2` of them), and exactly the edge lines
`INPUT → step₁`, `stepᵢ → stepᵢ₊₁` for consecutive steps, and
`stepN → OUTPUT` (`N + 1` of them). -/
theorem flowchart_plain_shape (w : Workflow) (hide : Bool) (s0 sl : Step) (ks : List String)
    (h0 : w.steps.head? = some s0) (hl : w.steps.getLast? = some sl)
    (hout : w.outputs = some ks)
    (hplain : ∀ s ∈ w.steps, noActions s) :
    nodeItems (flowchartItems w hide) =
      Item.inputNode (inputLabel w) :: (stepNodes w.steps ++ [Item.outputNode (outputLabel ks)]) ∧
    edgeItems (flowchartItems w hide) =
      Item.edge "INPUT" (sanitizeId s0.stepId) EdgeStyle.solid none ::
        (seqEdges w.steps ++ [Item.edge (sanitizeId sl.stepId) "OUTPUT" EdgeStyle.solid none]) ∧
    (nodeItems (flowchartItems w hide)).length = w.steps.length + 2 ∧
    (edgeItems (flowchartItems w hide)).length = w.steps.length + 1 := by
  have hsl : sl ∈ w.steps := List.mem_of_mem_getLast? (by simp [hl])
  have hEnd : hasExplicitEnd sl = false := hasExplicitEnd_of_noActs (hplain sl hsl).1
  have hlast : lastToOutput w = [Item.edge (sanitizeId sl.stepId) "OUTPUT" EdgeStyle.solid none] := by
    unfold lastToOutput
    rw [hout, hl]
    show (if hasExplicitEnd sl = true then [] else _) = _
    rw [hEnd]
    simp
  have hconn := stepConnections_plain (l := w.steps) hide hplain
  obtain ⟨rest, hsteps⟩ : ∃ rest, w.steps = s0 :: rest := by
    cases hs : w.steps with
    | nil => rw [hs] at h0; simp at h0
    | cons a r =>
      rw [hs] at h0
      simp only [List.head?_cons, Option.some.injEq] at h0
      exact ⟨r, by rw [h0]⟩
  have hitems : flowchartItems w hide =
      [Item.inputNode (inputLabel w)] ++ stepNodes w.steps ++ [Item.outputNode (outputLabel ks)] ++
      [Item.edge "INPUT" (sanitizeId s0.stepId) EdgeStyle.solid none] ++ seqEdges w.steps ++
      [Item.edge (sanitizeId sl.stepId) "OUTPUT" EdgeStyle.solid none] := by
    unfold flowchartItems
    rw [hout, hconn, hlast, hsteps]
  have hnode : nodeItems (flowchartItems w hide) =
      Item.inputNode (inputLabel w) :: (stepNodes w.steps ++ [Item.outputNode (outputLabel ks)]) := by
    rw [hitems, nodeItems_append, nodeItems_append, nodeItems_append, nodeItems_append,
      nodeItems_append, nodeItems_stepNodes, nodeItems_seqEdges]
    simp [nodeItems, Item.isNode]
  have hedge : edgeItems (flowchartItems w hide) =
      Item.edge "INPUT" (sanitizeId s0.stepId) EdgeStyle.solid none ::
        (seqEdges w.steps ++ [Item.edge (sanitizeId sl.stepId) "OUTPUT" EdgeStyle.solid none]) := by
    rw [hitems, edgeItems_append, edgeItems_append, edgeItems_append, edgeItems_append,
      edgeItems_append, edgeItems_stepNodes, edgeItems_seqEdges]
    simp [edgeItems, Item.isNode]
  refine ⟨hnode, hedge, ?_, ?_⟩
  · rw [hnode]
    simp [stepNodes_length]
  · rw [hedge]
    have : w.steps.length = rest.length + 1 := by rw [hsteps]; rfl
    simp [seqEdges_length, this]

/-- A two-step action-free workflow used to instantiate the shape
theorem. -/
def witPlainWf : Workflow :=
  { workflowId := "w"
    steps := [{ stepId := "a" }, { stepId := "b" }]
    outputs := some ["o"] }

/-- Witness for the shape theorem at a concrete two-step workflow. -/
theorem flowchart_plain_shape_witness :
    (nodeItems (flowchartItems witPlainWf false)).length = 4 ∧
    (edgeItems (flowchartItems witPlainWf false)).length = 3 := by
  have h := flowchart_plain_shape witPlainWf false { stepId := "a" } { stepId := "b" } ["o"]
    rfl rfl rfl (by intro s hs; fin_cases hs <;> exact ⟨rfl, rfl⟩)
  exact ⟨h.2.2.1, h.2.2.2⟩

/-! ## Default-edge suppression and explicit goto edges -/

theorem successEdgeOf_not_default {sid : String} {ar : ActionRef} {x : Item}
    (h : successEdgeOf sid ar = some x) : isDefaultSeqEdge x = false := by
  cases ar with
  | reusable r => simp [successEdgeOf] at h
  | action a =>
    simp only [successEdgeOf] at h
    split at h
    · split at h
      · simp only [Option.some.injEq] at h
        subst h
        rfl
      · simp at h
    · split at h
      · simp only [Option.some.injEq] at h
        subst h
        rfl
      · simp at h

theorem failureEdgeOf_not_default {sid : String} {ar : ActionRef} {x : Item}
    (h : failureEdgeOf sid ar = some x) : isDefaultSeqEdge x = false := by
  cases ar with
  | reusable r => simp [failureEdgeOf] at h
  | action a =>
    simp only [failureEdgeOf] at h
    split at h
    · split at h
      · simp only [Option.some.injEq] at h
        subst h
        rfl
      · simp at h
    · split at h
      · simp only [Option.some.injEq] at h
        subst h
        rfl
      · simp at h

theorem successEdges_filter_default (s : Step) :
    (successEdges s).filter isDefaultSeqEdge = [] := by
  refine List.filter_eq_nil_iff.mpr fun x hx => ?_
  obtain ⟨ar, -, har⟩ := List.mem_filterMap.mp hx
  simp [successEdgeOf_not_default har]

theorem failureEdges_filter_default (hide : Bool) (s : Step) :
    (failureEdges hide s).filter isDefaultSeqEdge = [] := by
  refine List.filter_eq_nil_iff.mpr fun x hx => ?_
  unfold failureEdges at hx
  cases hide with
  | true => simp at hx
  | false =>
    obtain ⟨ar, -, har⟩ := List.mem_filterMap.mp hx
    simp [failureEdgeOf_not_default har]

/-- The solid unlabelled edges of the connection loop are exactly the
default edges of the unsuppressed consecutive pairs. -/
theorem stepConnections_filter_default (hide : Bool) (l : List Step) :
    (stepConnections hide l).filter isDefaultSeqEdge =
      (consecPairs l).filterMap (fun p =>
        if hasExplicitNext p.1 then none
        else some (Item.edge (sanitizeId p.1.stepId) (sanitizeId p.2.stepId) EdgeStyle.solid none)) := by
  induction l with
  | nil => rfl
  | cons a rest ih =>
    match rest, ih with
    | [], _ =>
      show (successEdges a ++ failureEdges hide a).filter isDefaultSeqEdge = []
      rw [List.filter_append, successEdges_filter_default, failureEdges_filter_default]
      rfl
    | b :: rest', ih =>
      show ((if hasExplicitNext a then [] else [_]) ++ successEdges a ++ failureEdges hide a ++
        stepConnections hide (b :: rest')).filter isDefaultSeqEdge = _
      rw [List.filter_append, List.filter_append, List.filter_append,
        successEdges_filter_default, failureEdges_filter_default, ih]
      show (if hasExplicitNext a then ([] : List Item) else [_]).filter isDefaultSeqEdge ++ [] ++ [] ++ _ = _
      cases h : hasExplicitNext a with
      | true => simp [consecPairs, h]
      | false => simp [consecPairs, h, isDefaultSeqEdge]

theorem successEdgeOf_goto {sid : String} {a : Action} {t : String}
    (htype : a.type = "goto") (hstep : truthyStr a.stepId = some t) :
    successEdgeOf sid (ActionRef.action a) =
      some (Item.edge (sanitizeId sid) (sanitizeId t) EdgeStyle.solid
        (some ("✓ " ++ sanitizeLabel (jsOrStr a.name "success")))) := by
  simp [successEdgeOf, htype, hstep]

theorem mem_stepConnections_of_mem_successEdges {hide : Bool} {l : List Step} {s : Step} {x : Item}
    (hs : s ∈ l) (hx : x ∈ successEdges s) : x ∈ stepConnections hide l := by
  induction l with
  | nil => simp at hs
  | cons a rest ih =>
    match rest, hs, ih with
    | [], hs, _ =>
      rw [List.mem_singleton] at hs
      subst hs
      exact List.mem_append_left _ hx
    | b :: rest', hs, ih =>
      show x ∈ (if hasExplicitNext a then [] else [_]) ++ successEdges a ++ failureEdges hide a ++
        stepConnections hide (b :: rest')
      rcases List.mem_cons.mp hs with rfl | hs'
      · exact List.mem_append_left _ (List.mem_append_left _ (List.mem_append_right _ hx))
      · exact List.mem_append_right _ (ih hs')

/-- **C2.**  (1) The default sequential edges emitted by the connection
loop are exactly one solid unlabelled edge per consecutive pair whose
first step has no suppressing action.  (2) Suppression holds iff
`onSuccess` contains an inline action of type `goto` or `end` — the
action's own `criteria` are never consulted.  (3) A `goto` on step `i`
targeting an earlier existing step `j < i` yields a solid labelled
(success) edge from step `i` to step `j`, and the converter still returns
the cyclic flowchart rather than rejecting it. -/
theorem default_edge_characterization :
    (∀ (hide : Bool) (l : List Step),
      (stepConnections hide l).filter isDefaultSeqEdge =
        (consecPairs l).filterMap (fun p =>
          if hasExplicitNext p.1 then none
          else some (Item.edge (sanitizeId p.1.stepId) (sanitizeId p.2.stepId) EdgeStyle.solid none))) ∧
    (∀ s : Step, hasExplicitNext s = true ↔
      ∃ a : Action, ActionRef.action a ∈ s.onSuccess.getD [] ∧ (a.type = "goto" ∨ a.type = "end")) ∧
    (∀ (spec : ArazzoSpec) (wid : String) (hide : Bool) (w : Workflow) (i j : Nat) (si sj : Step)
      (a : Action),
      spec.workflows.find? (fun w' => w'.workflowId == wid) = some w →
      w.steps[i]? = some si → w.steps[j]? = some sj → j < i →
      ActionRef.action a ∈ si.onSuccess.getD [] → a.type = "goto" → a.stepId = some sj.stepId →
      sj.stepId ≠ "" →
      workflowToMermaidFlowchart spec wid hide = Except.ok (flowchartItems w hide) ∧
      Item.edge (sanitizeId si.stepId) (sanitizeId sj.stepId) EdgeStyle.solid
        (some ("✓ " ++ sanitizeLabel (jsOrStr a.name "success"))) ∈ flowchartItems w hide) := by
  refine ⟨stepConnections_filter_default, ?_, ?_⟩
  · intro s
    unfold hasExplicitNext
    cases hs : s.onSuccess with
    | none => simp
    | some acts =>
      simp only [Option.getD_some]
      rw [List.any_eq_true]
      constructor
      · rintro ⟨ar, har, hpred⟩
        cases ar with
        | reusable r => simp at hpred
        | action a =>
          refine ⟨a, har, ?_⟩
          simpa using hpred
      · rintro ⟨a, ha, htype⟩
        exact ⟨ActionRef.action a, ha, by simpa using htype⟩
  · intro spec wid hide w i j si sj a hfind hi hj hij hmem htype hstep hne
    have hok : workflowToMermaidFlowchart spec wid hide = Except.ok (flowchartItems w hide) := by
      unfold workflowToMermaidFlowchart
      rw [hfind]
    have htr : truthyStr a.stepId = some sj.stepId := by
      rw [hstep]
      simp [truthyStr, hne]
    have hedge : Item.edge (sanitizeId si.stepId) (sanitizeId sj.stepId) EdgeStyle.solid
        (some ("✓ " ++ sanitizeLabel (jsOrStr a.name "success"))) ∈ successEdges si :=
      List.mem_filterMap.mpr ⟨ActionRef.action a, hmem, successEdgeOf_goto htype htr⟩
    have hsi : si ∈ w.steps := List.getElem?_mem hi
    refine ⟨hok, ?_⟩
    unfold flowchartItems
    have : Item.edge (sanitizeId si.stepId) (sanitizeId sj.stepId) EdgeStyle.solid
        (some ("✓ " ++ sanitizeLabel (jsOrStr a.name "success"))) ∈ stepConnections hide w.steps :=
      mem_stepConnections_of_mem_successEdges hsi hedge
    simp only [List.append_assoc, List.mem_append]
    tauto

/-- A three-step workflow whose third step jumps back to the first. -/
def backWf : Workflow :=
  { workflowId := "loop"
    steps :=
      [{ stepId := "first" }, { stepId := "second" },
       { stepId := "third"
         onSuccess := some [ActionRef.action { name := "back", type := "goto", stepId := some "first" }] }] }

/-- A spec holding the backward-goto workflow. -/
def backSpec : ArazzoSpec := { arazzo := "1.0.1", workflows := [backWf] }

/-- Witness for the default-edge characterization at the backward-goto
workflow: the converter accepts the cyclic workflow and emits the
back edge `third → first`. -/
theorem default_edge_characterization_witness :
    workflowToMermaidFlowchart backSpec "loop" false = Except.ok (flowchartItems backWf false) ∧
    Item.edge (sanitizeId "third") (sanitizeId "first") EdgeStyle.solid
      (some ("✓ " ++ sanitizeLabel (jsOrStr "back" "success"))) ∈ flowchartItems backWf false := by
  have h := default_edge_characterization.2.2 backSpec "loop" false backWf 2 0
    { stepId := "third"
      onSuccess := some [ActionRef.action { name := "back", type := "goto", stepId := some "first" }] }
    { stepId := "first" }
    { name := "back", type := "goto", stepId := some "first" }
    rfl rfl rfl (by decide) (by decide) rfl rfl (by decide)
  exact h

/-! ## Dangling goto targets and retry actions -/

theorem successEdgeOf_retry {sid : String} {a : Action} (h : a.type = "retry") :
    successEdgeOf sid (ActionRef.action a) = none := by
  simp [successEdgeOf, h]

theorem failureEdgeOf_retry {sid : String} {a : Action} (h : a.type = "retry") :
    failureEdgeOf sid (ActionRef.action a) = none := by
  simp [failureEdgeOf, h]

/-- A workflow whose first step's `goto` names a step id (`"ghost"`) that
no step of the workflow carries. -/
def ghostWf : Workflow :=
  { workflowId := "g"
    steps :=
      [{ stepId := "fetchData"
         onSuccess := some [ActionRef.action { name := "go", type := "goto", stepId := some "ghost" }] },
       { stepId := "render" }] }

/-- A spec holding the dangling-goto workflow. -/
def ghostSpec : ArazzoSpec := { arazzo := "1.0.1", workflows := [ghostWf] }

/-- **C3 (counterexample).**  `"ghost"` names no step of the workflow,
yet the `goto` action's edge `fetchData → ghost` *is* emitted — the
converter performs no target-existence check and has no diagnostics
channel at all, contradicting the claim that a dangling action
contributes no edge and raises a ReferenceError. -/
theorem goto_dangling_target_emits_edge :
    (ghostWf.steps.all fun s => s.stepId != "ghost") = true ∧
    Item.edge "fetchData" "ghost" EdgeStyle.solid (some "✓ go") ∈ flowchartItems ghostWf false := by
  decide

/-- **C3 (amended).**  A `goto` action's edge is computed from the action
alone (source id, truthy target id, name) with no reference to the
workflow's step list, so it is emitted whether or not the target exists;
a `retry` action is silently skipped on both action lists; and whenever
the workflow id resolves, graph construction completes and returns the
full item list (there is no diagnostics output at all). -/
theorem dangling_reference_behavior :
    (∀ (srcId : String) (a : Action) (t : String),
      a.type = "goto" → truthyStr a.stepId = some t →
      successEdgeOf srcId (ActionRef.action a) =
        some (Item.edge (sanitizeId srcId) (sanitizeId t) EdgeStyle.solid
          (some ("✓ " ++ sanitizeLabel (jsOrStr a.name "success"))))) ∧
    (∀ (srcId : String) (a : Action), a.type = "retry" →
      successEdgeOf srcId (ActionRef.action a) = none ∧
      failureEdgeOf srcId (ActionRef.action a) = none) ∧
    (∀ (spec : ArazzoSpec) (wid : String) (hide : Bool) (w : Workflow),
      spec.workflows.find? (fun w' => w'.workflowId == wid) = some w →
      workflowToMermaidFlowchart spec wid hide = Except.ok (flowchartItems w hide)) := by
  refine ⟨fun srcId a t htype hstep => successEdgeOf_goto htype hstep,
    fun srcId a h => ⟨successEdgeOf_retry h, failureEdgeOf_retry h⟩,
    fun spec wid hide w hfind => ?_⟩
  unfold workflowToMermaidFlowchart
  rw [hfind]

/-- Witness for the dangling-reference behavior at concrete inputs. -/
theorem dangling_reference_behavior_witness :
    successEdgeOf "fetchData" (ActionRef.action { name := "go", type := "goto", stepId := some "ghost" }) =
      some (Item.edge (sanitizeId "fetchData") (sanitizeId "ghost") EdgeStyle.solid
        (some ("✓ " ++ sanitizeLabel (jsOrStr "go" "success")))) ∧
    failureEdgeOf "callApi" (ActionRef.action { name := "again", type := "retry", stepId := some "callApi" }) = none ∧
    workflowToMermaidFlowchart ghostSpec "g" false = Except.ok (flowchartItems ghostWf false) :=
  ⟨dangling_reference_behavior.1 "fetchData" _ "ghost" rfl rfl,
   (dangling_reference_behavior.2.1 "callApi" _ rfl).2,
   dangling_reference_behavior.2.2 ghostSpec "g" false ghostWf rfl⟩

/-- A single-step workflow whose only action is an `onFailure` retry
targeting the step itself. -/
def retryStep : Step :=
  { stepId := "callApi"
    onFailure := some [ActionRef.action { name := "again", type := "retry", stepId := some "callApi" }] }

/-- The workflow around `retryStep`. -/
def retryWf : Workflow := { workflowId := "r", steps := [retryStep] }

/-- **C4 (counterexample).**  The full emission for the retry workflow:
no failure-kind (dotted) edge appears at all — the retry action is
silently dropped, contradicting the claim that retry produces a
failure-kind edge back to its target. -/
theorem retry_no_edge_counterexample :
    flowchartItems retryWf false =
      [Item.inputNode "📥 Inputs: none", Item.stepNode "callApi" "1. callApi",
       Item.edge "INPUT" "callApi" EdgeStyle.solid none] := by
  decide

/-- **C4 (amended).**  `onFailure` actions of type `retry` contribute no
edge: the per-action translation returns nothing for them, and a step
whose failure actions are all retries gets an empty failure-edge list. -/
theorem retry_actions_skipped :
    (∀ (sid : String) (a : Action), a.type = "retry" →
      failureEdgeOf sid (ActionRef.action a) = none) ∧
    (∀ (hide : Bool) (s : Step),
      (∀ ar ∈ s.onFailure.getD [], ∃ a : Action, ar = ActionRef.action a ∧ a.type = "retry") →
      failureEdges hide s = []) := by
  refine ⟨fun sid a h => failureEdgeOf_retry h, fun hide s h => ?_⟩
  unfold failureEdges
  cases hide with
  | true => rfl
  | false =>
    simp only [Bool.false_eq_true, if_false]
    refine List.filterMap_eq_nil_iff.mpr fun ar har => ?_
    obtain ⟨a, rfl, htype⟩ := h ar har
    exact failureEdgeOf_retry htype

/-- Witness for the retry-skipping theorem at the retry workflow. -/
theorem retry_actions_skipped_witness :
    failureEdgeOf "callApi" (ActionRef.action { name := "again", type := "retry", stepId := some "callApi" }) = none ∧
    failureEdges false retryStep = [] :=
  ⟨retry_actions_skipped.1 "callApi" _ rfl,
   retry_actions_skipped.2 false retryStep (by
    intro ar har
    simp only [retryStep, Option.getD_some, List.mem_singleton] at har
    exact ⟨_, har, rfl⟩)⟩

/-! ## Workflow lookup and id sanitization -/

/-- **C9.**  The converter fails with exactly
`Workflow not found: <id>` iff no workflow carries the requested id, and
succeeds (returns an emitted item list) whenever some workflow does.  The
embedding is a pure function of the spec value — mirroring the source,
which only reads `spec.workflows`. -/
theorem workflow_not_found_error (spec : ArazzoSpec) (wid : String) (hide : Bool) :
    (workflowToMermaidFlowchart spec wid hide = Except.error ("Workflow not found: " ++ wid) ↔
      ∀ w ∈ spec.workflows, w.workflowId ≠ wid) ∧
    ((∃ w ∈ spec.workflows, w.workflowId = wid) →
      ∃ items, workflowToMermaidFlowchart spec wid hide = Except.ok items) := by
  constructor
  · constructor
    · intro herr w hw heq
      cases hfind : spec.workflows.find? (fun w' => w'.workflowId == wid) with
      | none =>
        have := List.find?_eq_none.mp hfind w hw
        simp [heq] at this
      | some w' =>
        unfold workflowToMermaidFlowchart at herr
        rw [hfind] at herr
        simp at herr
    · intro hall
      unfold workflowToMermaidFlowchart
      rw [List.find?_eq_none.mpr (fun w hw => by simp [hall w hw])]
  · rintro ⟨w, hw, heq⟩
    cases hfind : spec.workflows.find? (fun w' => w'.workflowId == wid) with
    | none =>
      have := List.find?_eq_none.mp hfind w hw
      simp [heq] at this
    | some w' =>
      exact ⟨flowchartItems w' hide, by unfold workflowToMermaidFlowchart; rw [hfind]⟩

/-- Witness for the lookup theorem: a missing id errors, a present id
succeeds. -/
theorem workflow_not_found_error_witness :
    workflowToMermaidFlowchart backSpec "nope" false = Except.error ("Workflow not found: " ++ "nope") ∧
    ∃ items, workflowToMermaidFlowchart backSpec "loop" false = Except.ok items :=
  ⟨(workflow_not_found_error backSpec "nope" false).1.mpr (by decide),
   (workflow_not_found_error backSpec "loop" false).2 ⟨backWf, by decide, rfl⟩⟩

/-- A step named `a-b`. -/
def stepDashAB : Step := { stepId := "a-b" }

/-- A step named `a.b`: distinct from `a-b`, same sanitized id. -/
def stepDotAB : Step := { stepId := "a.b" }

/-- **C10.**  Sanitized node ids consist only of letters, digits and
underscores; the distinct step ids `a-b` and `a.b` sanitize to the same
node id `a_b`, so their emitted step nodes carry identical ids (Mermaid
then renders them as one merged node). -/
theorem sanitizeId_collision :
    (∀ id : String, ∀ c ∈ (sanitizeId id).data, isAllowedIdChar c = true) ∧
    sanitizeId "a-b" = sanitizeId "a.b" ∧
    ("a-b" : String) ≠ "a.b" ∧
    stepNodes [stepDashAB, stepDotAB] =
      [Item.stepNode "a_b" "1. a-b", Item.stepNode "a_b" "2. a.b"] := by
  refine ⟨?_, by decide, by decide, by decide⟩
  intro id c hc
  have hc' : c ∈ id.data.map (fun c => if isAllowedIdChar c then c else '_') := hc
  obtain ⟨a, -, rfl⟩ := List.mem_map.mp hc'
  by_cases h : isAllowedIdChar a = true
  · rw [if_pos h]
    exact h
  · rw [if_neg h]
    decide

/-- Witness for the sanitization theorem: the id part applied at a
concrete character of a concrete sanitized id. -/
theorem sanitizeId_collision_witness :
    isAllowedIdChar '_' = true ∧ sanitizeId "a-b" = sanitizeId "a.b" :=
  ⟨sanitizeId_collision.1 "x-y" '_' (by decide), sanitizeId_collision.2.1⟩

/-! ## Operation-reference rule (validator) -/

/-- A step node declaring `stepId` and two operation references at once. -/
def multiRefStep : Yaml :=
  Yaml.map
    [("stepId", Yaml.scalar "s1" [60, 62, 62]),
     ("operationId", Yaml.scalar "op1" [63, 66, 66]),
     ("operationPath", Yaml.scalar "/p" [67, 69, 69])] [59, 70, 70]

/-- A step node declaring `stepId` but no operation reference. -/
def noRefStep : Yaml :=
  Yaml.map [("stepId", Yaml.scalar "s1" [60, 62, 62])] [59, 70, 70]

/-- An otherwise fully valid document whose only step carries more than
one operation reference. -/
def multiRefDoc : Yaml :=
  Yaml.map
    [("arazzo", Yaml.scalar "1.0.1" [0, 5, 5]),
     ("info", Yaml.map
       [("title", Yaml.scalar "T" [10, 11, 11]),
        ("version", Yaml.scalar "1.0.0" [12, 17, 17])] [6, 18, 18]),
     ("sourceDescriptions", Yaml.seq
       [Yaml.map [("name", Yaml.scalar "api" [20, 23, 23]),
                  ("url", Yaml.scalar "u" [24, 25, 25])] [19, 26, 26]] [19, 26, 26]),
     ("workflows", Yaml.seq
       [Yaml.map [("workflowId", Yaml.scalar "wf1" [41, 44, 44]),
                  ("steps", Yaml.seq [multiRefStep] [50, 71, 71])] [40, 72, 72]] [40, 72, 72])]
    [0, 80, 80]

/-- **C5 (counterexample).**  The step of `multiRefDoc` declares both
`operationId` and `operationPath`, yet the whole document validates with
zero diagnostics: the "more than one operation reference" violation is
never reported. -/
theorem multi_operation_ref_not_reported :
    validateArazzo multiRefDoc = [] ∧
    (multiRefStep.has "operationId" && multiRefStep.has "operationPath") = true := by
  decide

/-- **C5 (amended).**  The step validator reports the operation-reference
rule only in the "none present" direction: with no reference it appends
exactly one diagnostic naming all three alternatives; with at least one
reference present — including more than one — it appends nothing beyond
the `stepId` requirement check. -/
theorem operation_ref_rule (st : Yaml) :
    ((st.has "operationId" || st.has "operationPath" || st.has "workflowId") = false →
      validateStep st = checkRequired st ["stepId"] ++
        [mkDiag st "Step must contain one of \"operationId\", \"operationPath\", or \"workflowId\""]) ∧
    ((st.has "operationId" || st.has "operationPath" || st.has "workflowId") = true →
      validateStep st = checkRequired st ["stepId"]) := by
  constructor <;> intro h <;> unfold validateStep <;> rw [h] <;> simp

/-- Witness for the operation-reference rule at the two concrete steps. -/
theorem operation_ref_rule_witness :
    validateStep multiRefStep = checkRequired multiRefStep ["stepId"] ∧
    validateStep noRefStep = checkRequired noRefStep ["stepId"] ++
      [mkDiag noRefStep "Step must contain one of \"operationId\", \"operationPath\", or \"workflowId\""] :=
  ⟨(operation_ref_rule multiRefStep).2 rfl, (operation_ref_rule noRefStep).1 rfl⟩

/-! ## The `stepId` requirement (validator) -/

theorem filter_flatMap {α β : Type} (l : List α) (f : α → List β) (p : β → Bool) :
    (l.flatMap f).filter p = l.flatMap fun a => (f a).filter p := by
  induction l with
  | nil => rfl
  | cons x xs ih => rw [List.flatMap_cons, List.filter_append, ih, List.flatMap_cons]

theorem filterMap_flatMap {α β γ : Type} (l : List α) (f : α → List β) (g : β → Option γ) :
    (l.flatMap f).filterMap g = l.flatMap fun a => (f a).filterMap g := by
  induction l with
  | nil => rfl
  | cons x xs ih => rw [List.flatMap_cons, List.filterMap_append, ih, List.flatMap_cons]

theorem checkRequired_filter_ne (n : Yaml) (flds : List String) (m : String)
    (h : ∀ f ∈ flds, ("Missing required field: " ++ f) ≠ m) :
    (checkRequired n flds).filter (fun d => d.message == m) = [] := by
  refine List.filter_eq_nil_iff.mpr fun d hd => ?_
  obtain ⟨f, hf, hsome⟩ := List.mem_filterMap.mp hd
  by_cases hh : n.has f
  · rw [if_pos hh] at hsome
    exact absurd hsome (by simp)
  · rw [if_neg hh] at hsome
    simp only [Option.some.injEq] at hsome
    subst hsome
    exact fun hb => h f hf (eq_of_beq hb)

theorem checkRequired_stepId_filter (st : Yaml) :
    (checkRequired st ["stepId"]).filter (fun d => d.message == "Missing required field: stepId") =
      if st.has "stepId" then [] else [mkDiag st "Missing required field: stepId"] := by
  unfold checkRequired
  cases h : st.has "stepId" <;> simp [h, mkDiag]

theorem validateStep_filter (st : Yaml) :
    (validateStep st).filter (fun d => d.message == "Missing required field: stepId") =
      if st.has "stepId" then [] else [mkDiag st "Missing required field: stepId"] := by
  unfold validateStep
  rw [List.filter_append, checkRequired_stepId_filter]
  have h2 : (if st.has "operationId" || st.has "operationPath" || st.has "workflowId" then
        ([] : List Diagnostic)
      else [mkDiag st "Step must contain one of \"operationId\", \"operationPath\", or \"workflowId\""]).filter
      (fun d => d.message == "Missing required field: stepId") = [] := by
    cases st.has "operationId" || st.has "operationPath" || st.has "workflowId" <;> simp [mkDiag]
  rw [h2, List.append_nil]

theorem validateSourceDescriptionItem_filter (item : Yaml) :
    (validateSourceDescriptionItem item).filter
      (fun d => d.message == "Missing required field: stepId") = [] := by
  unfold validateSourceDescriptionItem
  cases hm : item.isMap
  · rfl
  · rw [if_pos rfl, List.filter_append, checkRequired_filter_ne _ _ _ (by decide),
      List.nil_append]
    cases item.get "type" with
    | none => rfl
    | some t =>
      cases t with
      | scalar v r =>
        by_cases hv : v ≠ "openapi" ∧ v ≠ "arazzo"
        · simp [hv, mkDiag]
        · simp [hv]
      | map es r => rfl
      | seq is r => rfl

/-- The map-typed step nodes reached by the validator inside one
workflow entry. -/
def wfSteps (wf : Yaml) : List Yaml :=
  if wf.isMap then
    match wf.get "steps" with
    | some (Yaml.seq sitems _) => sitems.filter Yaml.isMap
    | _ => []
  else []

/-- The map-typed step nodes the validator visits, in traversal order. -/
def docSteps (root : Yaml) : List Yaml :=
  match root.get "workflows" with
  | some (Yaml.seq items _) => items.flatMap wfSteps
  | _ => []

theorem steps_flatMap_filter (sitems : List Yaml) :
    (sitems.flatMap fun step => if step.isMap then validateStep step else []).filter
        (fun d => d.message == "Missing required field: stepId") =
      (sitems.filter Yaml.isMap).filterMap fun st =>
        if st.has "stepId" then none
        else some (mkDiag st "Missing required field: stepId") := by
  induction sitems with
  | nil => rfl
  | cons st rest ih =>
    rw [List.flatMap_cons, List.filter_append, ih, List.filter_cons]
    cases hm : st.isMap
    · simp
    · rw [if_pos rfl]
      rw [validateStep_filter]
      cases hs : st.has "stepId" <;> simp [List.filterMap_cons, hs]

theorem validateWorkflowItem_filter (wf : Yaml) :
    (validateWorkflowItem wf).filter (fun d => d.message == "Missing required field: stepId") =
      (wfSteps wf).filterMap fun st =>
        if st.has "stepId" then none
        else some (mkDiag st "Missing required field: stepId") := by
  unfold validateWorkflowItem wfSteps
  cases hm : wf.isMap
  · rfl
  · rw [if_pos rfl, if_pos rfl, List.filter_append, checkRequired_filter_ne _ _ _ (by decide),
      List.nil_append]
    cases wf.get "steps" with
    | none => rfl
    | some steps =>
      cases steps with
      | scalar v r => simp [mkDiag]
      | map es r => simp [mkDiag]
      | seq sitems r =>
        rw [List.filter_append, steps_flatMap_filter]
        have : (if sitems.length = 0 then [mkDiag (Yaml.seq sitems r) "steps must have at least one entry"]
            else ([] : List Diagnostic)).filter
            (fun d => d.message == "Missing required field: stepId") = [] := by
          by_cases hl : sitems.length = 0 <;> simp [hl, mkDiag]
        rw [this, List.nil_append]

/-- **C6.**  Document-wide, the diagnostics carrying the message
`Missing required field: stepId` are exactly one per visited map step
node lacking a `stepId` key, in traversal order, each located at that
step node's range (`mkDiag st …` carries `st`'s range) — in particular a
step lacking `stepId` yields exactly one such diagnostic at its range. -/
theorem missing_stepId_diagnostics (root : Yaml) :
    (validateArazzo root).filter (fun d => d.message == "Missing required field: stepId") =
      (docSteps root).filterMap fun st =>
        if st.has "stepId" then none
        else some (mkDiag st "Missing required field: stepId") := by
  unfold validateArazzo docSteps
  rw [List.filter_append, List.filter_append, List.filter_append,
    checkRequired_filter_ne _ _ _ (by decide)]
  have hinfo : List.filter (fun (d : Diagnostic) => d.message == "Missing required field: stepId")
      (match root.get "info" with
      | some info => if info.isMap then checkRequired info ["title", "version"] else []
      | none => []) = [] := by
    cases root.get "info" with
    | none => rfl
    | some info =>
      show List.filter _ (if info.isMap then checkRequired info ["title", "version"] else []) = []
      cases hm : info.isMap
      · rfl
      · exact checkRequired_filter_ne _ _ _ (by decide)
  have hsds : List.filter (fun (d : Diagnostic) => d.message == "Missing required field: stepId")
      (match root.get "sourceDescriptions" with
      | none => []
      | some sds =>
        match sds with
        | Yaml.seq items _ =>
          (if items.length = 0 then [mkDiag sds "sourceDescriptions must have at least one entry"] else []) ++
          items.flatMap validateSourceDescriptionItem
        | _ => [mkDiag sds "sourceDescriptions must be an array"]) = [] := by
    cases root.get "sourceDescriptions" with
    | none => rfl
    | some sds =>
      cases sds with
      | scalar v r => simp [mkDiag]
      | map es r => simp [mkDiag]
      | seq items r =>
        rw [List.filter_append, filter_flatMap]
        have h1 : List.filter (fun (d : Diagnostic) => d.message == "Missing required field: stepId")
            (if items.length = 0 then
              [mkDiag (Yaml.seq items r) "sourceDescriptions must have at least one entry"]
             else ([] : List Diagnostic)) = [] := by
          by_cases hl : items.length = 0 <;> simp [hl, mkDiag]
        rw [h1, List.nil_append]
        have h2 : (items.flatMap fun item =>
            List.filter (fun (d : Diagnostic) => d.message == "Missing required field: stepId")
              (validateSourceDescriptionItem item)) =
            items.flatMap fun _ => ([] : List Diagnostic) :=
          List.flatMap_congr fun item _ => validateSourceDescriptionItem_filter item
        rw [h2]
        simp
  rw [hinfo, hsds, List.nil_append, List.nil_append, List.nil_append]
  cases root.get "workflows" with
  | none => rfl
  | some wfs =>
    cases wfs with
    | scalar v r => simp [mkDiag]
    | map es r => simp [mkDiag]
    | seq items r =>
      rw [List.filter_append, filter_flatMap]
      have h1 : List.filter (fun (d : Diagnostic) => d.message == "Missing required field: stepId")
          (if items.length = 0 then
            [mkDiag (Yaml.seq items r) "workflows must have at least one entry"]
           else ([] : List Diagnostic)) = [] := by
        by_cases hl : items.length = 0 <;> simp [hl, mkDiag]
      rw [h1, List.nil_append]
      have h2 : (items.flatMap fun wf =>
          List.filter (fun (d : Diagnostic) => d.message == "Missing required field: stepId")
            (validateWorkflowItem wf)) =
          items.flatMap fun wf => (wfSteps wf).filterMap fun st =>
            if st.has "stepId" then none
            else some (mkDiag st "Missing required field: stepId") :=
        List.flatMap_congr fun wf _ => validateWorkflowItem_filter wf
      rw [h2]
      show items.flatMap _ = List.filterMap _ (items.flatMap wfSteps)
      exact (filterMap_flatMap items wfSteps _).symm

/-! ## Root and source-description checks (validator) -/

theorem mem_checkRequired {n : Yaml} {flds : List String} {f : String}
    (hf : f ∈ flds) (h : n.has f = false) :
    mkDiag n ("Missing required field: " ++ f) ∈ checkRequired n flds :=
  List.mem_filterMap.mpr ⟨f, hf, by rw [if_neg (by simp [h])]⟩

/-- **C7.**  The root validator emits a missing-field diagnostic for each
absent root field; an emptiness diagnostic when `sourceDescriptions` or
`workflows` is an empty sequence; and, per map source-description entry,
missing-`name`/missing-`url` diagnostics and a type-enum diagnostic when
`type` is a scalar outside `{openapi, arazzo}`. -/
theorem root_and_source_description_checks (root : Yaml) :
    (∀ f ∈ ["arazzo", "info", "sourceDescriptions", "workflows"], root.has f = false →
      mkDiag root ("Missing required field: " ++ f) ∈ validateArazzo root) ∧
    (∀ r : List Nat, root.get "sourceDescriptions" = some (Yaml.seq [] r) →
      mkDiag (Yaml.seq [] r) "sourceDescriptions must have at least one entry" ∈ validateArazzo root) ∧
    (∀ r : List Nat, root.get "workflows" = some (Yaml.seq [] r) →
      mkDiag (Yaml.seq [] r) "workflows must have at least one entry" ∈ validateArazzo root) ∧
    (∀ (items : List Yaml) (r : List Nat) (item : Yaml),
      root.get "sourceDescriptions" = some (Yaml.seq items r) → item ∈ items → item.isMap = true →
      ((item.has "name" = false → mkDiag item "Missing required field: name" ∈ validateArazzo root) ∧
       (item.has "url" = false → mkDiag item "Missing required field: url" ∈ validateArazzo root) ∧
       (∀ (v : String) (rt : List Nat), item.get "type" = some (Yaml.scalar v rt) →
         v ≠ "openapi" → v ≠ "arazzo" →
         mkDiag (Yaml.scalar v rt) "Type must be \"openapi\" or \"arazzo\"" ∈ validateArazzo root))) := by
  refine ⟨?_, ?_, ?_, ?_⟩
  · intro f hf hmiss
    exact List.mem_append_left _ (List.mem_append_left _
      (List.mem_append_left _ (mem_checkRequired hf hmiss)))
  · intro r heq
    unfold validateArazzo
    rw [heq]
    refine List.mem_append_left _ (List.mem_append_right _ ?_)
    show _ ∈ (if ([] : List Yaml).length = 0 then _ else _) ++ ([] : List Yaml).flatMap _
    simp
  · intro r heq
    unfold validateArazzo
    rw [heq]
    refine List.mem_append_right _ ?_
    show _ ∈ (if ([] : List Yaml).length = 0 then _ else _) ++ ([] : List Yaml).flatMap _
    simp
  · intro items r item heq hmem hmap
    have lift : ∀ d : Diagnostic, d ∈ validateSourceDescriptionItem item →
        d ∈ validateArazzo root := by
      intro d hd
      unfold validateArazzo
      rw [heq]
      refine List.mem_append_left _ (List.mem_append_right _ ?_)
      show d ∈ (if items.length = 0 then _ else _) ++ items.flatMap validateSourceDescriptionItem
      exact List.mem_append_right _ (List.mem_flatMap.mpr ⟨item, hmem, hd⟩)
    have hitem : ∀ d : Diagnostic,
        d ∈ checkRequired item ["name", "url"] ++
          (match item.get "type" with
           | some (Yaml.scalar v rr) =>
              if v ≠ "openapi" ∧ v ≠ "arazzo" then
                [mkDiag (Yaml.scalar v rr) "Type must be \"openapi\" or \"arazzo\""]
              else []
           | _ => []) →
        d ∈ validateSourceDescriptionItem item := by
      intro d hd
      unfold validateSourceDescriptionItem
      rw [hmap]
      exact hd
    refine ⟨fun hname => ?_, fun hurl => ?_, fun v rt hty hv1 hv2 => ?_⟩
    · exact lift _ (hitem _ (List.mem_append_left _ (mem_checkRequired (by simp) hname)))
    · exact lift _ (hitem _ (List.mem_append_left _ (mem_checkRequired (by simp) hurl)))
    · refine lift _ (hitem _ (List.mem_append_right _ ?_))
      rw [hty]
      show _ ∈ (if v ≠ "openapi" ∧ v ≠ "arazzo" then _ else _)
      rw [if_pos ⟨hv1, hv2⟩]
      exact List.mem_singleton.mpr rfl

/-- A bare map root with no keys at all. -/
def emptyRoot : Yaml := Yaml.map [] [0, 1, 1]

/-- A root whose `sourceDescriptions` and `workflows` are empty
sequences. -/
def emptySeqsRoot : Yaml :=
  Yaml.map
    [("sourceDescriptions", Yaml.seq [] [5, 6, 6]),
     ("workflows", Yaml.seq [] [7, 8, 8])] [0, 9, 9]

/-- A source-description entry missing `name` and `url`, with a bad
`type`. -/
def badSdItem : Yaml := Yaml.map [("type", Yaml.scalar "swagger" [7, 8, 8])] [6, 9, 9]

/-- A root holding the bad source-description entry. -/
def badSdRoot : Yaml :=
  Yaml.map [("sourceDescriptions", Yaml.seq [badSdItem] [5, 10, 10])] [0, 11, 11]

/-- Witness for the root/source-description checks at concrete roots. -/
theorem root_and_source_description_checks_witness :
    mkDiag emptyRoot ("Missing required field: " ++ "arazzo") ∈ validateArazzo emptyRoot ∧
    mkDiag (Yaml.seq [] [5, 6, 6]) "sourceDescriptions must have at least one entry" ∈
      validateArazzo emptySeqsRoot ∧
    mkDiag (Yaml.seq [] [7, 8, 8]) "workflows must have at least one entry" ∈
      validateArazzo emptySeqsRoot ∧
    mkDiag badSdItem "Missing required field: name" ∈ validateArazzo badSdRoot ∧
    mkDiag badSdItem "Missing required field: url" ∈ validateArazzo badSdRoot ∧
    mkDiag (Yaml.scalar "swagger" [7, 8, 8]) "Type must be \"openapi\" or \"arazzo\"" ∈
      validateArazzo badSdRoot := by
  have h4 := (root_and_source_description_checks badSdRoot).2.2.2 [badSdItem] [5, 10, 10] badSdItem
    rfl (List.mem_singleton.mpr rfl) rfl
  exact ⟨(root_and_source_description_checks emptyRoot).1 "arazzo" (by simp) rfl,
    (root_and_source_description_checks emptySeqsRoot).2.1 [5, 6, 6] rfl,
    (root_and_source_description_checks emptySeqsRoot).2.2.1 [7, 8, 8] rfl,
    h4.1 rfl, h4.2.1 rfl,
    h4.2.2 "swagger" [7, 8, 8] rfl (by decide) (by decide)⟩

/-! ## Uniqueness (validator) -/

/-- The scalar value of a node, when it is a scalar. -/
def scalarValue : Yaml → Option String
  | .scalar v _ => some v
  | _ => none

/-- Stated from the spec's invariant wording ("workflowId unique across
the document"): the `workflowId` scalar values of the workflow entries,
whose `Nodup`-ness is the spec's uniqueness invariant.  This definition
follows the spec, not the source — the source has no counterpart. -/
def specWorkflowIdValues (root : Yaml) : List (Option String) :=
  match root.get "workflows" with
  | some (Yaml.seq items _) => items.map fun wf => (wf.get "workflowId").bind scalarValue
  | _ => []

/-- Stated from the spec's invariant wording ("stepId unique within its
workflow"): the `stepId` scalar values of one workflow's step entries. -/
def specStepIdValues (wf : Yaml) : List (Option String) :=
  match wf.get "steps" with
  | some (Yaml.seq items _) => items.map fun st => (st.get "stepId").bind scalarValue
  | _ => []

/-- A valid step node. -/
def okStepNode : Yaml :=
  Yaml.map [("stepId", Yaml.scalar "s1" [50, 52, 52]),
            ("operationId", Yaml.scalar "op" [53, 55, 55])] [49, 56, 56]

/-- A valid workflow node with id `dup`. -/
def dupWfNode : Yaml :=
  Yaml.map [("workflowId", Yaml.scalar "dup" [41, 44, 44]),
            ("steps", Yaml.seq [okStepNode] [45, 60, 60])] [40, 61, 61]

/-- An otherwise valid document listing the same workflow (id `dup`)
twice. -/
def dupWorkflowDoc : Yaml :=
  Yaml.map
    [("arazzo", Yaml.scalar "1.0.1" [0, 5, 5]),
     ("info", Yaml.map
       [("title", Yaml.scalar "T" [10, 11, 11]),
        ("version", Yaml.scalar "1.0.0" [12, 17, 17])] [6, 18, 18]),
     ("sourceDescriptions", Yaml.seq
       [Yaml.map [("name", Yaml.scalar "api" [20, 23, 23]),
                  ("url", Yaml.scalar "u" [24, 25, 25])] [19, 26, 26]] [19, 26, 26]),
     ("workflows", Yaml.seq [dupWfNode, dupWfNode] [40, 90, 90])]
    [0, 100, 100]

/-- A workflow node listing the same step (id `s1`) twice. -/
def dupStepWfNode : Yaml :=
  Yaml.map [("workflowId", Yaml.scalar "wf1" [41, 44, 44]),
            ("steps", Yaml.seq [okStepNode, okStepNode] [45, 70, 70])] [40, 71, 71]

/-- An otherwise valid document whose single workflow repeats a step id. -/
def dupStepDoc : Yaml :=
  Yaml.map
    [("arazzo", Yaml.scalar "1.0.1" [0, 5, 5]),
     ("info", Yaml.map
       [("title", Yaml.scalar "T" [10, 11, 11]),
        ("version", Yaml.scalar "1.0.0" [12, 17, 17])] [6, 18, 18]),
     ("sourceDescriptions", Yaml.seq
       [Yaml.map [("name", Yaml.scalar "api" [20, 23, 23]),
                  ("url", Yaml.scalar "u" [24, 25, 25])] [19, 26, 26]] [19, 26, 26]),
     ("workflows", Yaml.seq [dupStepWfNode] [40, 90, 90])]
    [0, 100, 100]

/-- **C8 (counterexample).**  A document with two workflows of the same
`workflowId` validates with zero diagnostics: uniqueness does not hold
after successful validation. -/
theorem duplicate_workflowId_passes :
    validateArazzo dupWorkflowDoc = [] ∧ ¬ (specWorkflowIdValues dupWorkflowDoc).Nodup := by
  exact ⟨by decide, by decide⟩

/-- **C8 (amended).**  The validator performs no uniqueness checks at
all: documents with duplicate `workflowId`s across workflows, or
duplicate `stepId`s within one workflow, pass validation with zero
diagnostics. -/
theorem no_uniqueness_checks :
    (validateArazzo dupWorkflowDoc = [] ∧ ¬ (specWorkflowIdValues dupWorkflowDoc).Nodup) ∧
    (validateArazzo dupStepDoc = [] ∧ ¬ (specStepIdValues dupStepWfNode).Nodup) := by
  exact ⟨⟨by decide, by decide⟩, ⟨by decide, by decide⟩⟩

end Arazzo
